import Mathlib

/-!
Shallow embedding of the route/virus core of the FIT1008 A2 scaffold
(`route.py`, `virus.py`).

Numeric attributes of a computer (`hacking_difficulty`, `hacked_value`,
`risk_factor`) are Python floats used only through comparison, `max`, and
division; they are modelled as exact rationals (`ℚ`).

`Route` in the source is a dataclass with a single field
`store : RouteSplit | RouteSeries | None`; a route is therefore determined
by its store, and we model the pair as one inductive with three
constructors: `empty` (store `None`), `series c f` (store
`RouteSeries(c, f)`) and `split t b f` (store `RouteSplit(t, b, f)`).
Methods that return a `RouteStore` in Python are modelled as returning a
`Route` here, since the two are in bijection.
-/

/-- Modelled from the spec (§6, the `computer.py` value object is not in
src): a stop carries three read-only numeric fields used by policies. -/
structure Computer where
  hacking_difficulty : ℚ
  hacked_value : ℚ
  risk_factor : ℚ
deriving DecidableEq, Repr

/-- Embeds `branch_decision.BranchDecision`: closed enumeration TOP/BOTTOM/STOP. -/
inductive BranchDecision where
  | TOP
  | BOTTOM
  | STOP
deriving DecidableEq, Repr

/-- Embeds `route.Route` together with its `store` field (see module docstring). -/
inductive Route where
  | empty : Route
  | series (computer : Computer) (following : Route) : Route
  | split (top bottom following : Route) : Route
deriving DecidableEq, Repr

namespace Route

/-- Embeds `Route.add_computer_before`: `Route(RouteSeries(computer, self))`. -/
def add_computer_before (r : Route) (computer : Computer) : Route :=
  .series computer r

/-- Embeds `Route.add_empty_branch_before`:
`Route(RouteSplit(Route(None), Route(None), self))`. -/
def add_empty_branch_before (r : Route) : Route :=
  .split .empty .empty r

/-- Embeds `RouteSplit.remove_branch`: returns `self.following.store`.  The method
exists only on `RouteSplit`; calling it on another store is a runtime
attribute error, modelled as `none`. -/
def remove_branch : Route → Option Route
  | .split _ _ f => some f
  | _ => none

/-- Embeds `RouteSeries.remove_computer`: returns `self.following.store`.  The
method exists only on `RouteSeries`; otherwise `none`. -/
def remove_computer : Route → Option Route
  | .series _ f => some f
  | _ => none

/-- Embeds `RouteSeries.add_computer_before`: `RouteSeries(computer, Route(self))`. -/
def series_add_computer_before : Route → Computer → Option Route
  | .series c f, computer => some (.series computer (.series c f))
  | _, _ => none

/-- Embeds `RouteSeries.add_empty_branch_before`:
`RouteSplit(Route(None), Route(None), Route(self))`. -/
def series_add_empty_branch_before : Route → Option Route
  | .series c f => some (.split .empty .empty (.series c f))
  | _ => none

end Route

/-- The state of a `VirusType` object: its `computers` accumulator list
plus the `select_branch` behaviour of the concrete subclass (a pure
function of the two branch routes in every subclass of `virus.py`). -/
structure VirusType where
  select_branch : Route → Route → BranchDecision
  computers : List Computer

/-- Embeds `VirusType.add_computer`: `self.computers.append(computer)`. -/
def VirusType.add_computer (v : VirusType) (computer : Computer) : VirusType :=
  { v with computers := v.computers ++ [computer] }

namespace Route

/-- Embeds `Route.follow_path`: the while loop of `route.py` lines 108–121.
Series: add the computer to the virus, move to `following`.  Split: ask
`select_branch`; TOP moves to `top`, BOTTOM to `bottom`, STOP breaks out
of the loop.  The loop ends when the store is `None`. -/
def follow_path : Route → VirusType → VirusType
  | .empty, v => v
  | .series c f, v => follow_path f (v.add_computer c)
  | .split t b _, v =>
    match v.select_branch t b with
    | .TOP => follow_path t v
    | .BOTTOM => follow_path b v
    | .STOP => v

/-- The while loop of `Route.add_all_computers` (route.py lines 132–143)
with its `computers` accumulator threaded explicitly; on a split the
source calls the method itself (`= addAllAux _ []`) on the two branches
and then continues the loop on `following`. -/
def addAllAux : Route → List Computer → List Computer
  | .empty, acc => acc
  | .series c f, acc => addAllAux f (acc ++ [c])
  | .split t b f, acc => addAllAux f (acc ++ addAllAux t [] ++ addAllAux b [])

/-- Embeds `Route.add_all_computers`: starts the loop with an empty list. -/
def add_all_computers (r : Route) : List Computer :=
  addAllAux r []

end Route

/-- Embeds `TopVirus.select_branch`: always TOP. -/
def TopVirus.select_branch : Route → Route → BranchDecision :=
  fun _ _ => .TOP

/-- Embeds `BottomVirus.select_branch`: always BOTTOM. -/
def BottomVirus.select_branch : Route → Route → BranchDecision :=
  fun _ _ => .BOTTOM

/-- Embeds `LazyVirus.select_branch` (virus.py lines 43–66).  If both stores are
`RouteSeries` compare hacking difficulty (strictly lower wins, equal is
STOP); else BOTTOM when only the top store is a series, else TOP. -/
def LazyVirus.select_branch : Route → Route → BranchDecision
  | .series tc _, .series bc _ =>
    if tc.hacking_difficulty < bc.hacking_difficulty then .TOP
    else if tc.hacking_difficulty > bc.hacking_difficulty then .BOTTOM
    else .STOP
  | .series _ _, _ => .BOTTOM
  | _, _ => .TOP

namespace RiskAverseVirus

/-- Embeds `RiskAverseVirus.divide_by_risk_factor` (virus.py lines 131–139). -/
def divide_by_risk_factor (risk_factor : ℚ) (value : ℚ) : ℚ :=
  if risk_factor ≠ 0 then value / risk_factor else value

/-- The zero-risk-factor block of `RiskAverseVirus.select_branch`
(virus.py lines 89–99).  `some d` means the Python block returned `d`;
`none` means control fell through to the general comparison (which
happens when neither risk factor is zero, and also when both are zero
with equal hacking difficulties). -/
def zeroRiskCase (tc bc : Computer) : Option BranchDecision :=
  if tc.risk_factor = 0 ∨ bc.risk_factor = 0 then
    if tc.risk_factor = 0 ∧ bc.risk_factor = 0 then
      if tc.hacking_difficulty < bc.hacking_difficulty then some .TOP
      else if tc.hacking_difficulty > bc.hacking_difficulty then some .BOTTOM
      else none
    else if tc.risk_factor = 0 then some .TOP
    else some .BOTTOM
  else none

/-- The both-series arm of `RiskAverseVirus.select_branch`
(virus.py lines 86–122). -/
def bothSeries (tc bc : Computer) : BranchDecision :=
  match zeroRiskCase tc bc with
  | some d => d
  | none =>
    let highest_value_top_branch :=
      divide_by_risk_factor tc.risk_factor
        (max tc.hacking_difficulty (tc.hacked_value / 2))
    let highest_value_bottom_branch :=
      divide_by_risk_factor bc.risk_factor
        (max bc.hacking_difficulty (bc.hacked_value / 2))
    if highest_value_top_branch > highest_value_bottom_branch then .TOP
    else if highest_value_top_branch < highest_value_bottom_branch then .BOTTOM
    else if tc.risk_factor < bc.risk_factor then .TOP
    else if tc.risk_factor > bc.risk_factor then .BOTTOM
    else .STOP

/-- Embeds `RiskAverseVirus.select_branch` (virus.py lines 70–129).  When the
stores are not both `RouteSeries`: TOP if the top store is a
`RouteSplit`, else BOTTOM if the bottom store is a `RouteSplit`, else
TOP. -/
def select_branch : Route → Route → BranchDecision
  | .series tc _, .series bc _ => bothSeries tc bc
  | .split _ _ _, _ => .TOP
  | _, .split _ _ _ => .BOTTOM
  | _, _ => .TOP

end RiskAverseVirus

namespace FancyVirus

/-- Tokens of `FancyVirus.CALC_STR.split()`: an operand pushed on the
stack, or one of the four binary operators. -/
inductive CalcToken where
  | num (q : ℚ)
  | add
  | sub
  | mul
  | dvd
deriving DecidableEq, Repr

/-- Embeds `FancyVirus.CALC_STR` (`"7 3 + 8 - 2 * 2 /"`) after `.split()`. -/
def CALC_TOKENS : List CalcToken :=
  [.num 7, .num 3, .add, .num 8, .sub, .num 2, .mul, .num 2, .dvd]

/-- One operator application of the postfix loop: `num1` is the first
pop (stack top), `num2` the second pop, and the result is
`num2 <op> num1` (second-from-top is the left operand). -/
def applyOp (op : CalcToken) (num2 num1 : ℚ) : ℚ :=
  match op with
  | .add => num2 + num1
  | .sub => num2 - num1
  | .mul => num2 * num1
  | _ => num2 / num1

/-- The token loop of `FancyVirus.select_branch` (virus.py lines
155–162) over an explicit stack (the `LinkedStack` helper is a plain
LIFO stack, its source is not in src; modelled from the spec as a list
with push = cons).  `none` models a pop on an empty stack, which raises
in Python. -/
def runCalc : List CalcToken → List ℚ → Option (List ℚ)
  | [], stack => some stack
  | .num q :: ts, stack => runCalc ts (q :: stack)
  | op :: ts, num1 :: num2 :: stack => runCalc ts (applyOp op num2 num1 :: stack)
  | _ :: _, _ => none

/-- Embeds `threshold = oper_stack.pop()` after the loop (virus.py line 163). -/
def threshold : Option ℚ :=
  match runCalc CALC_TOKENS [] with
  | some (t :: _) => some t
  | _ => none

/-- Embeds `FancyVirus.select_branch` (virus.py lines 145–179).  `none` models
the (unreachable for the fixed `CALC_STR`) stack-underflow exception.
The two `elif isinstance(top_branch, RouteSplit)` / `isinstance(
bottom_branch, RouteSplit)` checks in the source test the `Route`
wrapper object, not its store; a `Route` is never a `RouteSplit`, so
both are always false and every case other than both-stores-series
returns TOP. -/
def select_branch (top_branch bottom_branch : Route) : Option BranchDecision :=
  threshold.map fun t =>
    match top_branch, bottom_branch with
    | .series tc _, .series bc _ =>
      if tc.hacked_value < t then .TOP
      else if bc.hacked_value > t then .BOTTOM
      else .STOP
    | _, _ => .TOP

end FancyVirus

/-- Returns `true` iff the route's store is a `RouteSeries`, i.e. the branch
starts with a stop. -/
def Route.startsWithStop : Route → Bool
  | .series _ _ => true
  | _ => false

/-- Returns `true` iff the route's store is a `RouteSplit`. -/
def Route.isSplit : Route → Bool
  | .split _ _ _ => true
  | _ => false

/-- Modelled from the spec (§4.2, algorithm steps 2–3): one iteration of
the `followPath` walk on configurations (current node, accumulator).
A Series appends its stop and advances to `following`; a Split advances
to `top` on a take-top decision and to `bottom` on a take-bottom
decision.  There is deliberately no transition into a Split's
`following` and no transition out of a stop-here decision. -/
inductive SpecStep (sel : Route → Route → BranchDecision) :
    Route × List Computer → Route × List Computer → Prop where
  | series (c : Computer) (f : Route) (acc : List Computer) :
      SpecStep sel (.series c f, acc) (f, acc ++ [c])
  | splitTop (t b f : Route) (acc : List Computer) (h : sel t b = .TOP) :
      SpecStep sel (.split t b f, acc) (t, acc)
  | splitBottom (t b f : Route) (acc : List Computer) (h : sel t b = .BOTTOM) :
      SpecStep sel (.split t b f, acc) (b, acc)

/-- Modelled from the spec (§4.2, steps 3–4): the walk halts at Empty
(normal end) or at a Split whose decision is stop-here. -/
def SpecHalted (sel : Route → Route → BranchDecision) :
    Route × List Computer → Prop
  | (.empty, _) => True
  | (.split t b _, _) => sel t b = .STOP
  | (.series _ _, _) => False

/-- Modelled from the spec (§4.1, `collectAllStops`): the canonical
all-stops order — for a Series the stop then the stops of `following`;
for a Split the stops of `top`, then of `bottom`, then of `following`. -/
def collectSpec : Route → List Computer
  | .empty => []
  | .series c f => c :: collectSpec f
  | .split t b f => collectSpec t ++ collectSpec b ++ collectSpec f

/-- A route built purely by repeated `add_computer_before` calls on an
initially empty route, inserting the computers of `cs` in list order. -/
def buildRoute (cs : List Computer) : Route :=
  cs.foldl Route.add_computer_before .empty

/-!
Heap model for the frame property of `follow_path`.  Python routes are
objects on a heap; `follow_path` holds a reference `current_route` and
performs only field reads (`store`, `computer`, `following`, `top`,
`bottom`), never a field write.  We make the heap explicit — addresses
are naturals, each address holds a node — and thread it through the loop
so that any write the code performed would be visible in the returned
heap.  The branch selectors of `virus.py` compute their decision purely
from field reads, so a policy is modelled as a pure function of the heap
and the two branch addresses.  Fuel bounds the loop (an arbitrary heap
may have cycles); `none` means the fuel ran out.
-/

/-- A heap node: the `store` of one `Route` object, child routes given by
address. -/
inductive HNode where
  | hempty
  | hseries (computer : Computer) (following : Nat)
  | hsplit (top bottom following : Nat)

/-- The heap: what node each address holds. -/
def Heap : Type := Nat → HNode

/-- The `follow_path` loop over the explicit heap, returning the heap as
left by the loop together with the final accumulator. -/
def followPathH (sel : Heap → Nat → Nat → BranchDecision) :
    Nat → Heap → Nat → List Computer → Option (Heap × List Computer)
  | 0, _, _, _ => none
  | fuel + 1, h, a, acc =>
    match h a with
    | .hempty => some (h, acc)
    | .hseries c f => followPathH sel fuel h f (acc ++ [c])
    | .hsplit t b _ =>
      match sel h t b with
      | .TOP => followPathH sel fuel h t acc
      | .BOTTOM => followPathH sel fuel h b acc
      | .STOP => some (h, acc)

/-- An example two-node heap: address 0 is a series node whose
`following` is the empty route at address 1. -/
def exHeap : Heap :=
  fun a => if a = 0 then .hseries ⟨1, 2, 3⟩ 1 else .hempty

/-- The method `add_computer` only touches the `computers` field. -/
theorem VirusType.select_branch_add (v : VirusType) (c : Computer) :
    (v.add_computer c).select_branch = v.select_branch := rfl

/-- The walk `follow_path` never changes the virus's selection behaviour. -/
theorem Route.follow_path_select : ∀ (r : Route) (v : VirusType),
    (r.follow_path v).select_branch = v.select_branch
  | .empty, _ => rfl
  | .series c f, v => follow_path_select f (v.add_computer c)
  | .split t b f, v => by
      rw [Route.follow_path]
      cases h : v.select_branch t b
      · exact follow_path_select t v
      · exact follow_path_select b v
      · rfl

/-- The `add_all_computers` loop appends `collectSpec` of the current
node to the accumulator. -/
theorem Route.addAllAux_eq : ∀ (r : Route) (acc : List Computer),
    addAllAux r acc = acc ++ collectSpec r
  | .empty, acc => by simp [addAllAux, collectSpec]
  | .series c f, acc => by
      simp [addAllAux, collectSpec, addAllAux_eq f]
  | .split t b f, acc => by
      simp [addAllAux, collectSpec, addAllAux_eq f, addAllAux_eq t, addAllAux_eq b]

/-- Collecting over a pure `add_computer_before` fold gives the inserted
computers reversed, in front of the original route's stops. -/
theorem collectSpec_foldl : ∀ (cs : List Computer) (r : Route),
    collectSpec (cs.foldl Route.add_computer_before r) = cs.reverse ++ collectSpec r
  | [], r => by simp
  | c :: cs, r => by
      simp [List.foldl, collectSpec_foldl cs, Route.add_computer_before, collectSpec]

/-- C3: `add_all_computers` returns the reachable stops in the canonical
order (Series: stop then following; Split: top, bottom, following), and
on a route built purely by `add_computer_before` calls on an empty route
it returns the inserted computers in reverse insertion order. -/
theorem add_all_computers_canonical_order :
    (∀ r : Route, r.add_all_computers = collectSpec r) ∧
    (∀ cs : List Computer, (buildRoute cs).add_all_computers = cs.reverse) := by
  have hall : ∀ r : Route, r.add_all_computers = collectSpec r := by
    intro r
    simp [Route.add_all_computers, Route.addAllAux_eq]
  refine ⟨hall, fun cs => ?_⟩
  rw [hall, buildRoute, collectSpec_foldl]
  simp [collectSpec]

/-- C8: `remove_branch` undoes `add_empty_branch_before` and
`remove_computer` undoes `add_computer_before`, structurally. -/
theorem remove_inverts_insert (r : Route) (c : Computer) :
    (r.add_empty_branch_before).remove_branch = some r ∧
    (r.add_computer_before c).remove_computer = some r :=
  ⟨rfl, rfl⟩

/-- C10: on the empty route, `follow_path` returns the virus state
untouched (the accumulator is exactly as before) and
`add_all_computers` returns the empty list. -/
theorem empty_route_noop :
    (∀ v : VirusType, Route.empty.follow_path v = v) ∧
    Route.empty.add_all_computers = [] :=
  ⟨fun _ => rfl, rfl⟩

/-- C2: at a split, a take-top decision continues with the top sub-route
only and a take-bottom decision with the bottom sub-route only; the
split's `following` plays no part in the rest of the walk — for any
non-stop decision the result is the same for every `following`. -/
theorem follow_path_split_choice (v : VirusType) (t b f : Route) :
    (v.select_branch t b = .TOP →
      (Route.split t b f).follow_path v = t.follow_path v) ∧
    (v.select_branch t b = .BOTTOM →
      (Route.split t b f).follow_path v = b.follow_path v) ∧
    (∀ f' : Route, v.select_branch t b ≠ .STOP →
      (Route.split t b f).follow_path v = (Route.split t b f').follow_path v) := by
  refine ⟨fun h => ?_, fun h => ?_, fun f' h => ?_⟩
  · rw [Route.follow_path, h]
  · rw [Route.follow_path, h]
  · cases hd : v.select_branch t b
    · rw [Route.follow_path, hd, Route.follow_path, hd]
    · rw [Route.follow_path, hd, Route.follow_path, hd]
    · exact absurd hd h

/-- Witness for C2 at a concrete split and an always-top policy. -/
theorem follow_path_split_choice_witness :
    (Route.split (Route.series ⟨1, 2, 3⟩ .empty) .empty .empty).follow_path
        ⟨fun _ _ => .TOP, []⟩ =
      (Route.series ⟨1, 2, 3⟩ .empty).follow_path ⟨fun _ _ => .TOP, []⟩ :=
  (follow_path_split_choice ⟨fun _ _ => .TOP, []⟩
    (Route.series ⟨1, 2, 3⟩ .empty) .empty .empty).1 rfl

/-- C1: `follow_path` executes exactly the spec's step loop: starting
from the route with the virus's current accumulator there is a
`SpecStep` walk (Series appends the stop and advances to `following`;
Split consults `select_branch` and advances to `top` or `bottom`) that
ends in a halting configuration — Empty, or a Split whose decision is
stop-here, from which no step into the split's `following` exists — and
whose final accumulator is precisely what `follow_path` leaves in the
virus. -/
theorem follow_path_refines_spec_walk : ∀ (r : Route) (v : VirusType),
    ∃ s' : Route × List Computer,
      Relation.ReflTransGen (SpecStep v.select_branch) (r, v.computers) s' ∧
      SpecHalted v.select_branch s' ∧
      s'.2 = (r.follow_path v).computers
  | .empty, v => ⟨(.empty, v.computers), .refl, trivial, rfl⟩
  | .series c f, v => by
      obtain ⟨s', hsteps, hhalt, hacc⟩ :=
        follow_path_refines_spec_walk f (v.add_computer c)
      exact ⟨s', .head (SpecStep.series c f v.computers) hsteps, hhalt,
        by rw [Route.follow_path]; exact hacc⟩
  | .split t b f, v => by
      cases hd : v.select_branch t b with
      | TOP =>
        obtain ⟨s', hsteps, hhalt, hacc⟩ := follow_path_refines_spec_walk t v
        exact ⟨s', .head (SpecStep.splitTop t b f v.computers hd) hsteps, hhalt,
          by rw [Route.follow_path, hd]; exact hacc⟩
      | BOTTOM =>
        obtain ⟨s', hsteps, hhalt, hacc⟩ := follow_path_refines_spec_walk b v
        exact ⟨s', .head (SpecStep.splitBottom t b f v.computers hd) hsteps, hhalt,
          by rw [Route.follow_path, hd]; exact hacc⟩
      | STOP =>
        exact ⟨(.split t b f, v.computers), .refl, hd,
          by rw [Route.follow_path, hd]⟩

/-- The fixed postfix expression evaluates to exactly 2. -/
theorem FancyVirus.threshold_eq : FancyVirus.threshold = some 2 := by
  norm_num [FancyVirus.threshold, FancyVirus.runCalc, FancyVirus.CALC_TOKENS,
    FancyVirus.applyOp]

/-- C6: with both branches starting with a stop, LazyVirus takes the
branch of strictly lower hacking difficulty and stops on equality; in
particular equal difficulties of 5 give STOP. -/
theorem lazy_both_series_spec (tc bc : Computer) (tf bf : Route) :
    (tc.hacking_difficulty < bc.hacking_difficulty →
      LazyVirus.select_branch (.series tc tf) (.series bc bf) = .TOP) ∧
    (bc.hacking_difficulty < tc.hacking_difficulty →
      LazyVirus.select_branch (.series tc tf) (.series bc bf) = .BOTTOM) ∧
    (tc.hacking_difficulty = bc.hacking_difficulty →
      LazyVirus.select_branch (.series tc tf) (.series bc bf) = .STOP) ∧
    LazyVirus.select_branch (.series ⟨5, 0, 0⟩ .empty) (.series ⟨5, 0, 0⟩ .empty)
      = .STOP := by
  refine ⟨fun h => ?_, fun h => ?_, fun h => ?_, ?_⟩
  · simp [LazyVirus.select_branch, h]
  · simp [LazyVirus.select_branch, h, h.asymm]
  · simp [LazyVirus.select_branch, h, lt_irrefl]
  · norm_num [LazyVirus.select_branch]

/-- Witness for C6: difficulties 3 versus 7 give TOP. -/
theorem lazy_both_series_spec_witness :
    LazyVirus.select_branch (.series ⟨3, 0, 0⟩ .empty) (.series ⟨7, 0, 0⟩ .empty)
      = .TOP :=
  (lazy_both_series_spec ⟨3, 0, 0⟩ ⟨7, 0, 0⟩ .empty .empty).1 (by norm_num)

/-- C7: the fixed postfix expression of FancyVirus evaluates to exactly
2, and with both branches starting with a stop the decision is TOP when
the top computer's hacked value is below that threshold, else BOTTOM
when the bottom computer's hacked value is above it, else STOP. -/
theorem fancy_threshold_spec :
    FancyVirus.threshold = some 2 ∧
    ∀ (tc bc : Computer) (tf bf : Route),
      (tc.hacked_value < 2 →
        FancyVirus.select_branch (.series tc tf) (.series bc bf) = some .TOP) ∧
      (¬ tc.hacked_value < 2 → 2 < bc.hacked_value →
        FancyVirus.select_branch (.series tc tf) (.series bc bf) = some .BOTTOM) ∧
      (¬ tc.hacked_value < 2 → ¬ 2 < bc.hacked_value →
        FancyVirus.select_branch (.series tc tf) (.series bc bf) = some .STOP) := by
  refine ⟨FancyVirus.threshold_eq,
    fun tc bc tf bf => ⟨fun h1 => ?_, fun h1 h2 => ?_, fun h1 h2 => ?_⟩⟩
  · simp [FancyVirus.select_branch, FancyVirus.threshold_eq, h1]
  · simp [FancyVirus.select_branch, FancyVirus.threshold_eq, h1, h2]
  · simp [FancyVirus.select_branch, FancyVirus.threshold_eq, h1, h2]

/-- Witness for C7: a top hacked value of 1 is below the threshold 2, so
the decision is TOP. -/
theorem fancy_threshold_spec_witness :
    FancyVirus.select_branch (.series ⟨0, 1, 0⟩ .empty) (.series ⟨0, 0, 0⟩ .empty)
      = some .TOP :=
  (fancy_threshold_spec.2 ⟨0, 1, 0⟩ ⟨0, 0, 0⟩ .empty .empty).1 (by norm_num)

/-- C4: RiskAverseVirus on two stop-starting branches — a unique
zero-risk branch wins outright; with both zero-risk the lower hacking
difficulty wins; in the remaining cases (neither zero-risk, or both
zero-risk with equal difficulties) the comparison value
`max(hacking_difficulty, hacked_value / 2)` divided by the risk factor
(zero treated as divisor 1 by `divide_by_risk_factor`) decides — higher
wins, ties go to the lower risk factor, and equal risk factors give
STOP.  Concretely, top {4, 10, 2} versus bottom {4, 10, 1} gives
BOTTOM. -/
theorem riskAverse_both_series_spec (tc bc : Computer) (tf bf : Route) :
    (tc.risk_factor = 0 → bc.risk_factor ≠ 0 →
      RiskAverseVirus.select_branch (.series tc tf) (.series bc bf) = .TOP) ∧
    (tc.risk_factor ≠ 0 → bc.risk_factor = 0 →
      RiskAverseVirus.select_branch (.series tc tf) (.series bc bf) = .BOTTOM) ∧
    (tc.risk_factor = 0 → bc.risk_factor = 0 →
      (tc.hacking_difficulty < bc.hacking_difficulty →
        RiskAverseVirus.select_branch (.series tc tf) (.series bc bf) = .TOP) ∧
      (bc.hacking_difficulty < tc.hacking_difficulty →
        RiskAverseVirus.select_branch (.series tc tf) (.series bc bf) = .BOTTOM)) ∧
    ((tc.risk_factor ≠ 0 ∧ bc.risk_factor ≠ 0) ∨
        (tc.risk_factor = 0 ∧ bc.risk_factor = 0 ∧
          tc.hacking_difficulty = bc.hacking_difficulty) →
      (RiskAverseVirus.divide_by_risk_factor bc.risk_factor
          (max bc.hacking_difficulty (bc.hacked_value / 2)) <
          RiskAverseVirus.divide_by_risk_factor tc.risk_factor
            (max tc.hacking_difficulty (tc.hacked_value / 2)) →
        RiskAverseVirus.select_branch (.series tc tf) (.series bc bf) = .TOP) ∧
      (RiskAverseVirus.divide_by_risk_factor tc.risk_factor
          (max tc.hacking_difficulty (tc.hacked_value / 2)) <
          RiskAverseVirus.divide_by_risk_factor bc.risk_factor
            (max bc.hacking_difficulty (bc.hacked_value / 2)) →
        RiskAverseVirus.select_branch (.series tc tf) (.series bc bf) = .BOTTOM) ∧
      (RiskAverseVirus.divide_by_risk_factor tc.risk_factor
          (max tc.hacking_difficulty (tc.hacked_value / 2)) =
          RiskAverseVirus.divide_by_risk_factor bc.risk_factor
            (max bc.hacking_difficulty (bc.hacked_value / 2)) →
        (tc.risk_factor < bc.risk_factor →
          RiskAverseVirus.select_branch (.series tc tf) (.series bc bf) = .TOP) ∧
        (bc.risk_factor < tc.risk_factor →
          RiskAverseVirus.select_branch (.series tc tf) (.series bc bf) = .BOTTOM) ∧
        (tc.risk_factor = bc.risk_factor →
          RiskAverseVirus.select_branch (.series tc tf) (.series bc bf) = .STOP))) ∧
    RiskAverseVirus.select_branch (.series ⟨4, 10, 2⟩ .empty)
      (.series ⟨4, 10, 1⟩ .empty) = .BOTTOM := by
  refine ⟨fun h1 h2 => ?_, fun h1 h2 => ?_,
    fun h1 h2 => ⟨fun h3 => ?_, fun h3 => ?_⟩, fun hor => ?_, ?_⟩
  · simp [RiskAverseVirus.select_branch, RiskAverseVirus.bothSeries,
      RiskAverseVirus.zeroRiskCase, h1, h2]
  · simp [RiskAverseVirus.select_branch, RiskAverseVirus.bothSeries,
      RiskAverseVirus.zeroRiskCase, h1, h2]
  · simp [RiskAverseVirus.select_branch, RiskAverseVirus.bothSeries,
      RiskAverseVirus.zeroRiskCase, h1, h2, h3]
  · simp [RiskAverseVirus.select_branch, RiskAverseVirus.bothSeries,
      RiskAverseVirus.zeroRiskCase, h1, h2, h3, h3.asymm]
  · have hzn : RiskAverseVirus.zeroRiskCase tc bc = none := by
      rcases hor with ⟨h1, h2⟩ | ⟨h1, h2, h3⟩
      · simp [RiskAverseVirus.zeroRiskCase, h1, h2]
      · simp [RiskAverseVirus.zeroRiskCase, h1, h2, h3, lt_irrefl]
    refine ⟨fun hlt => ?_, fun hlt => ?_,
      fun heq => ⟨fun hr => ?_, fun hr => ?_, fun hr => ?_⟩⟩
    · simp [RiskAverseVirus.select_branch, RiskAverseVirus.bothSeries, hzn, hlt]
    · simp [RiskAverseVirus.select_branch, RiskAverseVirus.bothSeries, hzn,
        hlt, hlt.asymm]
    · simp [RiskAverseVirus.select_branch, RiskAverseVirus.bothSeries, hzn,
        heq, lt_irrefl, hr]
    · simp [RiskAverseVirus.select_branch, RiskAverseVirus.bothSeries, hzn,
        heq, lt_irrefl, hr, hr.asymm]
    · simp only [RiskAverseVirus.select_branch, RiskAverseVirus.bothSeries, hzn]
      rw [heq]
      simp [lt_irrefl, hr]
  · norm_num [RiskAverseVirus.select_branch, RiskAverseVirus.bothSeries,
      RiskAverseVirus.zeroRiskCase, RiskAverseVirus.divide_by_risk_factor]

/-- Witness for C4: a zero-risk top branch wins outright. -/
theorem riskAverse_both_series_spec_witness :
    RiskAverseVirus.select_branch (.series ⟨1, 1, 0⟩ .empty)
      (.series ⟨1, 1, 1⟩ .empty) = .TOP :=
  (riskAverse_both_series_spec ⟨1, 1, 0⟩ ⟨1, 1, 1⟩ .empty .empty).1 rfl
    (by norm_num)

/-- C5 counterexample: with a stop-starting top branch and an empty
bottom branch the claim demands take-bottom, yet RiskAverse and Fancy
both return take-top; with an empty top branch and a split bottom branch
(neither starts with a stop) the claim demands take-top, yet RiskAverse
returns take-bottom. -/
theorem avoid_stop_counterexample :
    RiskAverseVirus.select_branch (.series ⟨1, 1, 1⟩ .empty) .empty = .TOP ∧
    FancyVirus.select_branch (.series ⟨1, 1, 1⟩ .empty) .empty = some .TOP ∧
    RiskAverseVirus.select_branch .empty (.split .empty .empty .empty)
      = .BOTTOM := by
  refine ⟨rfl, ?_, rfl⟩
  simp [FancyVirus.select_branch, FancyVirus.threshold_eq]

/-- C5 amended: LazyVirus behaves as the claim states (the branch
without the stop when exactly one branch starts with one, take-top when
neither does).  RiskAverse instead returns take-top when the top branch
is a split, else take-bottom when the bottom branch is a split, else
take-top; Fancy returns take-top in every case where the branches are
not both stop-starting. -/
theorem avoid_stop_amended :
    (∀ (c : Computer) (f b : Route), b.startsWithStop = false →
      LazyVirus.select_branch (.series c f) b = .BOTTOM) ∧
    (∀ t b : Route, t.startsWithStop = false →
      LazyVirus.select_branch t b = .TOP) ∧
    (∀ t b : Route, ¬(t.startsWithStop = true ∧ b.startsWithStop = true) →
      RiskAverseVirus.select_branch t b =
        if t.isSplit then .TOP else if b.isSplit then .BOTTOM else .TOP) ∧
    (∀ t b : Route, ¬(t.startsWithStop = true ∧ b.startsWithStop = true) →
      FancyVirus.select_branch t b = some .TOP) := by
  refine ⟨fun c f b hb => ?_, fun t b ht => ?_, fun t b hnb => ?_, fun t b hnb => ?_⟩
  · cases b <;> simp_all [LazyVirus.select_branch, Route.startsWithStop]
  · cases t <;> cases b <;>
      simp_all [LazyVirus.select_branch, Route.startsWithStop]
  · cases t <;> cases b <;>
      simp_all [RiskAverseVirus.select_branch, Route.startsWithStop, Route.isSplit]
  · cases t <;> cases b <;>
      simp_all [FancyVirus.select_branch, FancyVirus.threshold_eq,
        Route.startsWithStop]

/-- Witness for the amended C5 at a concrete input: Fancy returns
take-top when the top branch starts with a stop and the bottom is
empty. -/
theorem avoid_stop_amended_witness :
    FancyVirus.select_branch (.series ⟨1, 1, 1⟩ .empty) .empty = some .TOP :=
  avoid_stop_amended.2.2.2 (.series ⟨1, 1, 1⟩ .empty) .empty
    (by simp [Route.startsWithStop])

/-- Running the heap walk with a nonempty starting accumulator only
prefixes the result of running it with an empty one. -/
theorem followPathH_acc (sel : Heap → Nat → Nat → BranchDecision) :
    ∀ (fuel : Nat) (h : Heap) (a : Nat) (acc : List Computer),
      followPathH sel fuel h a acc =
        (followPathH sel fuel h a []).map fun p => (p.1, acc ++ p.2)
  | 0, _, _, _ => rfl
  | fuel + 1, h, a, acc => by
      cases hnode : h a with
      | hempty => simp [followPathH, hnode]
      | hseries c f =>
          simp only [followPathH, hnode]
          rw [followPathH_acc sel fuel h f (acc ++ [c]),
            followPathH_acc sel fuel h f ([] ++ [c])]
          cases followPathH sel fuel h f [] with
          | none => rfl
          | some p => simp
      | hsplit t b fo =>
          simp only [followPathH, hnode]
          cases hsel : sel h t b with
          | TOP => simp only [hsel]; exact followPathH_acc sel fuel h t acc
          | BOTTOM => simp only [hsel]; exact followPathH_acc sel fuel h b acc
          | STOP => simp [hsel]

/-- The heap walk never writes to the heap: a successful run returns the
heap it was given. -/
theorem followPathH_heap (sel : Heap → Nat → Nat → BranchDecision) :
    ∀ (fuel : Nat) (h : Heap) (a : Nat) (acc : List Computer)
      (p : Heap × List Computer),
      followPathH sel fuel h a acc = some p → p.1 = h
  | 0, _, _, _, _ => by simp [followPathH]
  | fuel + 1, h, a, acc, p => by
      cases hnode : h a with
      | hempty =>
          simp only [followPathH, hnode]
          intro hh
          injection hh with hh
          subst hh
          rfl
      | hseries c f =>
          simp only [followPathH, hnode]
          exact followPathH_heap sel fuel h f (acc ++ [c]) p
      | hsplit t b fo =>
          simp only [followPathH, hnode]
          cases hsel : sel h t b with
          | TOP => simp only [hsel]; exact followPathH_heap sel fuel h t acc p
          | BOTTOM => simp only [hsel]; exact followPathH_heap sel fuel h b acc p
          | STOP =>
              simp only [hsel]
              intro hh
              injection hh with hh
              subst hh
              rfl

/-- C9: over the explicit heap, `follow_path` mutates nothing but the
accumulator — for any read-only policy, any heap and any successful run,
the heap after the walk is the heap before it, and the final accumulator
is the initial one with the walk's visited computers appended. -/
theorem followPathH_frame (sel : Heap → Nat → Nat → BranchDecision)
    (fuel : Nat) (h h' : Heap) (a : Nat) (acc acc' : List Computer)
    (hrun : followPathH sel fuel h a acc = some (h', acc')) :
    h' = h ∧ ∃ vs, acc' = acc ++ vs ∧
      followPathH sel fuel h a [] = some (h, vs) := by
  have hp : h' = h := followPathH_heap sel fuel h a acc (h', acc') hrun
  rw [followPathH_acc] at hrun
  cases hrun0 : followPathH sel fuel h a [] with
  | none => rw [hrun0] at hrun; simp at hrun
  | some p =>
      obtain ⟨p1, p2⟩ := p
      rw [hrun0] at hrun
      simp only [Option.map_some', Option.some.injEq, Prod.mk.injEq] at hrun
      refine ⟨hp, p2, hrun.2.symm, ?_⟩
      rw [hrun.1, hp]

/-- Witness for C9: a two-node heap (a series stop, then empty), an
always-top policy, fuel 2. -/
theorem followPathH_frame_witness :
    exHeap = exHeap ∧ ∃ vs, [(⟨1, 2, 3⟩ : Computer)] = [] ++ vs ∧
      followPathH (fun _ _ _ => .TOP) 2 exHeap 0 [] = some (exHeap, vs) :=
  followPathH_frame (fun _ _ _ => .TOP) 2 exHeap exHeap 0 [] [⟨1, 2, 3⟩] rfl
